import Mathlib

/-!
Shallow embedding of the numeric post-processing pipeline of the
RFSoC4x2-PYNQ spectrum notebooks
(`02_rf_spectrum_analysis.ipynb`, `03_rf_spectrum_sweep.ipynb`).

Real-valued floating point data is modelled by `ℝ` (where logarithms occur)
or by `ℚ` (where only field and order operations occur), complex sample
data by `ℂ`, NumPy 1-D arrays by lists, and Python exceptions by
`Option`/`Except`.
-/

namespace RFSoC

/-- NumPy elementwise multiplication of two 1-D arrays, as used for
windowing in `02_rf_spectrum_analysis.ipynb` (`cdata[i]*window`):
equal lengths multiply componentwise; a length-one operand broadcasts
across the other; any other length mismatch raises a broadcast
`ValueError`, modelled as `none`. -/
def npMul (x w : List ℂ) : Option (List ℂ) :=
  if x.length = w.length then some (List.zipWith (fun a b => a * b) x w)
  else if w.length = 1 then some (x.map (fun a => a * w.getD 0 0))
  else if x.length = 1 then some (w.map (fun b => x.getD 0 0 * b))
  else none

/-- `np.fft.fftshift`: swap the two halves of a 1-D array, rolling it by
`length / 2`, so that the zero-frequency bin moves to the centre. -/
def fftshift {α : Type} (x : List α) : List α :=
  x.drop ((x.length + 1) / 2) ++ x.take ((x.length + 1) / 2)

/-- `np.fft.fft`: the unscaled forward discrete Fourier transform;
bin `k` is `∑ n, x[n] * exp(-2πi·k·n/N)` with no `1/N` normalisation. -/
noncomputable def dft (x : List ℂ) : List ℂ :=
  (List.range x.length).map (fun (k : ℕ) =>
    ∑ n ∈ Finset.range x.length,
      x.getD n 0 * Complex.exp
        (-(2 * Real.pi * Complex.I * (k : ℂ) * (n : ℂ)) / (x.length : ℂ)))

/-- The frequency-domain conversion step of `02_rf_spectrum_analysis.ipynb`:
`fdata.append(np.fft.fftshift(np.fft.fft(wdata[i])))`. -/
noncomputable def fdataStep (y : List ℂ) : List ℂ := fftshift (dft y)

/-- `freq_to_psd` from `02_rf_spectrum_analysis.ipynb`:
`psd = (abs(data)**2)/(fs*np.sum(window**2))` followed by
`10*np.where(psd > 0, np.log10(psd), 0)`.  The parameter `N` appears in
the Python signature (defaulted to `number_samples`) but is never used. -/
noncomputable def freq_to_psd (data : List ℂ) (N : ℕ) (fs : ℝ) (window : List ℝ) : List ℝ :=
  data.map (fun z =>
    let psd := Complex.abs z ^ 2 / (fs * ((window.map (fun w => w ^ 2)).sum))
    10 * (if 0 < psd then Real.logb 10 psd else 0))

/-- Insert a `(value, index)` pair into a list sorted by ascending value,
placing it before the first entry of greater-or-equal value.  Together with
`sortPairs` this is the stable ascending sort that `np.argsort` performs on
the array's `(value, index)` pairs (NumPy's small-array introsort degenerates
to a stable insertion sort, which is the behaviour observable on the inputs
considered here). -/
def insertPair (p : ℚ × ℕ) : List (ℚ × ℕ) → List (ℚ × ℕ)
  | [] => [p]
  | q :: qs => if p.1 ≤ q.1 then p :: q :: qs else q :: insertPair p qs

/-- Stable insertion sort of `(value, index)` pairs by ascending value. -/
def sortPairs : List (ℚ × ℕ) → List (ℚ × ℕ)
  | [] => []
  | p :: ps => insertPair p (sortPairs ps)

/-- Pair every element of the list with its position, starting at `n`. -/
def withIdx : List ℚ → ℕ → List (ℚ × ℕ)
  | [], _ => []
  | x :: xs, n => (x, n) :: withIdx xs (n + 1)

/-- `np.argsort`: the indices that sort the array ascending. -/
def argsort (l : List ℚ) : List ℕ :=
  (sortPairs (withIdx l 0)).map Prod.snd

/-- `calculate_fundamental` from `03_rf_spectrum_sweep.ipynb`:
`rbw = sample_frequency/number_samples`;
`maxindex = np.argsort(spectrum)[-1:][0]`;
`maxindex * rbw + receive_frequency - sample_frequency/2`.
On an empty spectrum the `[0]` indexing raises (`none`). -/
def calculate_fundamental (spectrum : List ℚ)
    (sample_frequency number_samples receive_frequency : ℚ) : Option ℚ :=
  let rbw := sample_frequency / number_samples
  ((argsort spectrum).getLast?).map
    (fun (maxindex : ℕ) =>
      (maxindex : ℚ) * rbw + receive_frequency - sample_frequency / 2)

/-- `np.max`: maximum of a 1-D array; raises `ValueError` on an empty
array (`none`). -/
def npMax : List ℚ → Option ℚ
  | [] => none
  | x :: xs => some (xs.foldl max x)

/-- `np.average`: arithmetic mean of a 1-D array; undefined on an empty
array (`none`). -/
def npAverage : List ℚ → Option ℚ
  | [] => none
  | x :: xs => some ((x :: xs).sum / (x :: xs).length)

/-- `calculate_simple_snr` from `03_rf_spectrum_sweep.ipynb`:
`np.max(spectrum) - np.average(spectrum)`. -/
def calculate_simple_snr (spectrum : List ℚ) : Option ℚ :=
  match npMax spectrum, npAverage spectrum with
  | some m, some a => some (m - a)
  | _, _ => none

/-- The helper used to state what `np.argsort(..)[-1:][0]` computes: the
position of the maximum, choosing the highest index when several entries
tie. -/
def lastMaxIdx : List ℚ → Option ℕ
  | [] => none
  | x :: xs =>
    match lastMaxIdx xs with
    | none => some 0
    | some k => if xs.getD k 0 < x then some 0 else some (k + 1)

/-- `frequency_zones = [1228.8, 3686.4]` from `run_spectrum_sweep`
(MHz centres of the two Nyquist-zone settings). -/
def frequency_zones : List ℚ := [12288 / 10, 36864 / 10]

/-- The Nyquist-zone selection inside `run_spectrum_sweep`'s analyser loop:
`if frequency*1e6 < sample_frequency: receive_frequency = frequency_zones[0]
else: receive_frequency = frequency_zones[1]`.  The selection reads only the
swept frequency and the sample frequency, never the analyser, so every
receive-channel analyser is given the same value. -/
def receiveFrequencyFor (frequency sample_frequency : ℚ) : ℚ :=
  if frequency * 1000000 < sample_frequency then frequency_zones.getD 0 0
  else frequency_zones.getD 1 0

/-- The external hardware collaborators of `run_spectrum_sweep`
(tone generators and spectrum analysers from `rfsystem.spectrum_sweep`,
which the spec treats as opaque interfaces).  Each operation may raise,
modelled by `Except`.  `anaGetSpectrum` receives the analyser's index and
the transmit frequency most recently commanded to the generators, standing
in for the hardware state of the loopback at the moment `get_spectrum` is
read. -/
structure SweepEnv where
  generators : ℕ
  analysers : ℕ
  genEnable : ℕ → Bool → Except String Unit
  genGain : ℕ → ℚ → Except String Unit
  genFrequency : ℕ → ℚ → Except String Unit
  anaFrequency : ℕ → ℚ → Except String Unit
  anaPlotFrequency : ℕ → ℚ → Except String Unit
  anaUpdate : ℕ → Except String Unit
  anaGetSpectrum : ℕ → ℚ → Except String (List ℚ)

/-- The generator loop of `run_spectrum_sweep`: for each generator set
`amplitude_controller.enable = True`, `amplitude_controller.gain = amplitude`
and `frequency_selector.centre_frequency = frequency`. -/
def configGenerators (env : SweepEnv) (amplitude frequency : ℚ) :
    List ℕ → Except String Unit
  | [] => .ok ()
  | g :: gs => do
    env.genEnable g true
    env.genGain g amplitude
    env.genFrequency g frequency
    configGenerators env amplitude frequency gs

/-- One iteration of the analyser loop of `run_spectrum_sweep`: select the
Nyquist-zone centre, configure the analyser and its plot, refresh and read
the spectrum, and return the `(fundamental*1e-6, snr)` measurement pair that
the loop appends.  An empty spectrum makes `np.max`/the `[0]` indexing
raise. -/
def measureOne (env : SweepEnv) (sample_frequency number_samples frequency : ℚ)
    (i : ℕ) : Except String (ℚ × ℚ) := do
  let receive_frequency := receiveFrequencyFor frequency sample_frequency
  env.anaFrequency i receive_frequency
  env.anaPlotFrequency i (receive_frequency * 1000000)
  env.anaUpdate i
  let spectrum ← env.anaGetSpectrum i frequency
  match calculate_fundamental spectrum sample_frequency number_samples
      (receive_frequency * 1000000), calculate_simple_snr spectrum with
  | some fund, some s => .ok (fund * (1 / 1000000), s)
  | _, _ => .error "empty spectrum"

/-- The analyser loop of `run_spectrum_sweep` for one swept frequency,
collecting the measurement pairs in analyser order. -/
def measureAll (env : SweepEnv) (sample_frequency number_samples frequency : ℚ) :
    List ℕ → Except String (List (ℚ × ℚ))
  | [] => .ok []
  | i :: is => do
    let m ← measureOne env sample_frequency number_samples frequency i
    let ms ← measureAll env sample_frequency number_samples frequency is
    .ok (m :: ms)

/-- The frequency loop of `run_spectrum_sweep`: configure every generator,
sleep the settle time (no observable effect here), then run the analyser
loop, appending all measurement pairs to one flat list in loop order. -/
def sweepFreqs (env : SweepEnv) (sample_frequency number_samples amplitude : ℚ) :
    List ℚ → Except String (List (ℚ × ℚ))
  | [] => .ok []
  | f :: fs => do
    configGenerators env amplitude f (List.range env.generators)
    let ms ← measureAll env sample_frequency number_samples f
      (List.range env.analysers)
    let rest ← sweepFreqs env sample_frequency number_samples amplitude fs
    .ok (ms ++ rest)

/-- Python list slicing `l[start::step]` (as in `fundamental[i::len(analysers)]`). -/
def sliceStep {α : Type} (step : ℕ) : List α → List α
  | [] => []
  | x :: xs => x :: sliceStep step (xs.drop (step - 1))
termination_by l => l.length
decreasing_by simp; omega

/-- `run_spectrum_sweep` from `03_rf_spectrum_sweep.ipynb`, over the
abstract collaborators `env`; `sample_frequency` and `number_samples` are
the ambient notebook globals (2457.6e6 and 12288 in the notebook run).
After the loops it builds, for each analyser `i`, the table
`np.array([frequencies, fundamental[i::len(analysers)], snr[i::len(analysers)]])`. -/
def run_spectrum_sweep (env : SweepEnv)
    (sample_frequency number_samples : ℚ)
    (frequencies : List ℚ) (amplitude : ℚ) :
    Except String (List (List (List ℚ))) := do
  let flat ← sweepFreqs env sample_frequency number_samples amplitude frequencies
  let fundamental := flat.map Prod.fst
  let snr := flat.map Prod.snd
  .ok ((List.range env.analysers).map (fun i =>
    [frequencies,
     sliceStep env.analysers (fundamental.drop i),
     sliceStep env.analysers (snr.drop i)]))

/-! ### Lemmas about the stable argsort and the tie-break of
`calculate_fundamental` -/

theorem insertPair_ne_nil (p : ℚ × ℕ) (s : List (ℚ × ℕ)) :
    insertPair p s ≠ [] := by
  cases s with
  | nil => simp [insertPair]
  | cons q qs =>
    simp only [insertPair]
    split <;> simp

theorem chain'_insertPair (p : ℚ × ℕ) (s : List (ℚ × ℕ))
    (h : s.Chain' (fun a b => a.1 ≤ b.1)) :
    (insertPair p s).Chain' (fun a b => a.1 ≤ b.1) := by
  induction s with
  | nil => simp [insertPair]
  | cons q qs ih =>
    by_cases hpq : p.1 ≤ q.1
    · show (if p.1 ≤ q.1 then p :: q :: qs else q :: insertPair p qs).Chain'
        (fun a b => a.1 ≤ b.1)
      rw [if_pos hpq]
      exact List.Chain'.cons hpq h
    · show (if p.1 ≤ q.1 then p :: q :: qs else q :: insertPair p qs).Chain'
        (fun a b => a.1 ≤ b.1)
      rw [if_neg hpq]
      refine List.chain'_cons'.mpr ⟨?_, ih h.tail⟩
      intro y hy
      rcases qs with _ | ⟨r, rs⟩
      · simp only [insertPair, List.head?_cons, Option.mem_def,
          Option.some.injEq] at hy
        subst hy
        exact le_of_not_le hpq
      · by_cases hpr : p.1 ≤ r.1
        · have : insertPair p (r :: rs) = p :: r :: rs := if_pos hpr
          rw [this] at hy
          simp only [List.head?_cons, Option.mem_def, Option.some.injEq] at hy
          subst hy
          exact le_of_not_le hpq
        · have : insertPair p (r :: rs) = r :: insertPair p rs := if_neg hpr
          rw [this] at hy
          simp only [List.head?_cons, Option.mem_def, Option.some.injEq] at hy
          subst hy
          exact (List.chain'_cons.mp h).1

theorem chain'_sortPairs (s : List (ℚ × ℕ)) :
    (sortPairs s).Chain' (fun a b => a.1 ≤ b.1) := by
  induction s with
  | nil => simp [sortPairs]
  | cons p ps ih => exact chain'_insertPair p (sortPairs ps) ih

theorem chain'_head_le_getLast (s : List (ℚ × ℕ)) (q L : ℚ × ℕ)
    (h : s.Chain' (fun a b => a.1 ≤ b.1))
    (hh : s.head? = some q) (hl : s.getLast? = some L) : q.1 ≤ L.1 := by
  induction s generalizing q with
  | nil => simp at hh
  | cons a as ih =>
    simp only [List.head?_cons, Option.some.injEq] at hh
    subst hh
    rcases as with _ | ⟨b, bs⟩
    · simp only [List.getLast?_singleton, Option.some.injEq] at hl
      subst hl; exact le_refl _
    · have hab : a.1 ≤ b.1 := (List.chain'_cons.mp h).1
      have hbL : b.1 ≤ L.1 := by
        refine ih b ?_ rfl ?_
        · exact (List.chain'_cons.mp h).2
        · simpa [List.getLast?_cons_cons] using hl
      exact le_trans hab hbL

theorem getLast?_insertPair (p : ℚ × ℕ) (s : List (ℚ × ℕ))
    (h : s.Chain' (fun a b => a.1 ≤ b.1)) :
    (insertPair p s).getLast? =
      some (match s.getLast? with
            | none => p
            | some L => if p.1 ≤ L.1 then L else p) := by
  induction s with
  | nil => simp [insertPair]
  | cons q qs ih =>
    have hunf : insertPair p (q :: qs) =
        if p.1 ≤ q.1 then p :: q :: qs else q :: insertPair p qs := rfl
    by_cases hpq : p.1 ≤ q.1
    · rw [hunf, if_pos hpq]
      rcases hL : (q :: qs).getLast? with _ | L
      · simp at hL
      · have hq : q.1 ≤ L.1 := chain'_head_le_getLast _ q L h rfl hL
        have hpL : p.1 ≤ L.1 := le_trans hpq hq
        simp only [hpL, if_true]
        rw [← hL]
        rcases qs with _ | ⟨r, rs⟩ <;> simp [List.getLast?_cons_cons]
    · rw [hunf, if_neg hpq]
      rcases qs with _ | ⟨r, rs⟩
      · simp [insertPair, hpq]
      · have ih' := ih (List.chain'_cons.mp h).2
        have h1 : (q :: insertPair p (r :: rs)).getLast? =
            (insertPair p (r :: rs)).getLast? := by
          rcases hne : insertPair p (r :: rs) with _ | ⟨u, us⟩
          · exact absurd hne (insertPair_ne_nil p (r :: rs))
          · rw [List.getLast?_cons_cons]
        rw [h1, ih', List.getLast?_cons_cons]

theorem lastMaxIdx_eq_none_iff (l : List ℚ) : lastMaxIdx l = none ↔ l = [] := by
  cases l with
  | nil => simp [lastMaxIdx]
  | cons x xs =>
    rcases h : lastMaxIdx xs with _ | k
    · simp [lastMaxIdx, h]
    · have hcons : lastMaxIdx (x :: xs) =
          if xs.getD k 0 < x then some 0 else some (k + 1) := by
        simp [lastMaxIdx, h]
      rw [hcons]
      split <;> simp

theorem sortPairs_withIdx_getLast (l : List ℚ) :
    ∀ n, (sortPairs (withIdx l n)).getLast? =
      (lastMaxIdx l).map (fun k => (l.getD k 0, k + n)) := by
  induction l with
  | nil => intro n; simp [withIdx, sortPairs, lastMaxIdx]
  | cons x xs ih =>
    intro n
    have hunf : sortPairs (withIdx (x :: xs) n) =
        insertPair (x, n) (sortPairs (withIdx xs (n + 1))) := rfl
    rw [hunf, getLast?_insertPair _ _ (chain'_sortPairs _), ih (n + 1)]
    have hlm : lastMaxIdx (x :: xs) =
        match lastMaxIdx xs with
        | none => some 0
        | some k => if xs.getD k 0 < x then some 0 else some (k + 1) := rfl
    rcases h : lastMaxIdx xs with _ | k
    · have hxs : xs = [] := (lastMaxIdx_eq_none_iff xs).mp h
      subst hxs
      simp [hlm, lastMaxIdx, withIdx, sortPairs, insertPair]
    · have hcons : lastMaxIdx (x :: xs) =
          if xs.getD k 0 < x then some 0 else some (k + 1) := by
        simp [lastMaxIdx, h]
      rw [hcons]
      simp only [Option.map_some']
      by_cases hx : xs.getD k 0 < x
      · rw [if_pos hx, if_neg (not_le.mpr hx)]
        simp
      · rw [if_neg hx, if_pos (not_lt.mp hx)]
        simp only [Option.map_some', List.getD_cons_succ, Option.some.injEq,
          Prod.mk.injEq]
        exact ⟨trivial, by omega⟩

theorem argsort_getLast (l : List ℚ) : (argsort l).getLast? = lastMaxIdx l := by
  unfold argsort
  rw [List.getLast?_map, sortPairs_withIdx_getLast l 0]
  rcases lastMaxIdx l with _ | k <;> simp

/-- `calculate_fundamental` in terms of the last index attaining the
spectrum's maximum. -/
theorem calculate_fundamental_eq (spectrum : List ℚ) (fs N rf : ℚ) :
    calculate_fundamental spectrum fs N rf =
      (lastMaxIdx spectrum).map
        (fun (k : ℕ) => (k : ℚ) * (fs / N) + rf - fs / 2) := by
  unfold calculate_fundamental
  rw [argsort_getLast]

theorem lastMaxIdx_cons_none (x : ℚ) (xs : List ℚ) (h : lastMaxIdx xs = none) :
    lastMaxIdx (x :: xs) = some 0 := by
  simp [lastMaxIdx, h]

theorem lastMaxIdx_cons_some (x : ℚ) (xs : List ℚ) (k : ℕ)
    (h : lastMaxIdx xs = some k) :
    lastMaxIdx (x :: xs) =
      if xs.getD k 0 < x then some 0 else some (k + 1) := by
  simp [lastMaxIdx, h]

theorem lastMaxIdx_lt_length (l : List ℚ) (k : ℕ) (h : lastMaxIdx l = some k) :
    k < l.length := by
  induction l generalizing k with
  | nil => simp [lastMaxIdx] at h
  | cons x xs ih =>
    rcases h' : lastMaxIdx xs with _ | k'
    · rw [lastMaxIdx_cons_none x xs h'] at h
      cases h
      simp
    · rw [lastMaxIdx_cons_some x xs k' h'] at h
      by_cases hx : xs.getD k' 0 < x
      · rw [if_pos hx] at h
        cases h
        simp
      · rw [if_neg hx] at h
        cases h
        have := ih k' h'
        simp only [List.length_cons]
        omega

theorem lastMaxIdx_is_max (l : List ℚ) (k : ℕ) (h : lastMaxIdx l = some k) :
    ∀ j, j < l.length → l.getD j 0 ≤ l.getD k 0 := by
  induction l generalizing k with
  | nil => simp [lastMaxIdx] at h
  | cons x xs ih =>
    rcases h' : lastMaxIdx xs with _ | k'
    · have hxs : xs = [] := (lastMaxIdx_eq_none_iff xs).mp h'
      subst hxs
      rw [lastMaxIdx_cons_none x [] h'] at h
      cases h
      intro j hj
      have hj0 : j = 0 := by
        simp at hj
        omega
      subst hj0
      exact le_refl _
    · rw [lastMaxIdx_cons_some x xs k' h'] at h
      by_cases hx : xs.getD k' 0 < x
      · rw [if_pos hx] at h
        cases h
        intro j hj
        cases j with
        | zero => exact le_refl _
        | succ j =>
          simp only [List.getD_cons_succ, List.getD_cons_zero]
          have hj' : j < xs.length := by simpa using hj
          exact le_trans (ih k' h' j hj') (le_of_lt hx)
      · rw [if_neg hx] at h
        cases h
        intro j hj
        cases j with
        | zero =>
          simp only [List.getD_cons_succ, List.getD_cons_zero]
          exact not_lt.mp hx
        | succ j =>
          simp only [List.getD_cons_succ]
          have hj' : j < xs.length := by simpa using hj
          exact ih k' h' j hj'

theorem lastMaxIdx_is_last (l : List ℚ) (k : ℕ) (h : lastMaxIdx l = some k) :
    ∀ j, k < j → j < l.length → l.getD j 0 < l.getD k 0 := by
  induction l generalizing k with
  | nil => simp [lastMaxIdx] at h
  | cons x xs ih =>
    rcases h' : lastMaxIdx xs with _ | k'
    · have hxs : xs = [] := (lastMaxIdx_eq_none_iff xs).mp h'
      subst hxs
      rw [lastMaxIdx_cons_none x [] h'] at h
      cases h
      intro j hj hjl
      simp at hjl
      omega
    · rw [lastMaxIdx_cons_some x xs k' h'] at h
      by_cases hx : xs.getD k' 0 < x
      · rw [if_pos hx] at h
        cases h
        intro j hj hjl
        cases j with
        | zero => omega
        | succ j =>
          simp only [List.getD_cons_succ, List.getD_cons_zero]
          have hj' : j < xs.length := by simpa using hjl
          exact lt_of_le_of_lt (lastMaxIdx_is_max xs k' h' j hj') hx
      · rw [if_neg hx] at h
        cases h
        intro j hj hjl
        cases j with
        | zero => omega
        | succ j =>
          simp only [List.getD_cons_succ]
          have hj' : j < xs.length := by simpa using hjl
          exact ih k' h' j (by omega) hj'

theorem lastMax_unique (l : List ℚ) (k k' : ℕ)
    (hk : k < l.length)
    (hmax : ∀ j, j < l.length → l.getD j 0 ≤ l.getD k 0)
    (hlast : ∀ j, k < j → j < l.length → l.getD j 0 < l.getD k 0)
    (hk' : k' < l.length)
    (hmax' : ∀ j, j < l.length → l.getD j 0 ≤ l.getD k' 0)
    (hlast' : ∀ j, k' < j → j < l.length → l.getD j 0 < l.getD k' 0) :
    k = k' := by
  rcases lt_trichotomy k k' with hlt | heq | hgt
  · have h1 := hlast k' hlt hk'
    have h2 := hmax' k hk
    exact absurd (lt_of_le_of_lt h2 h1) (lt_irrefl _)
  · exact heq
  · have h1 := hlast' k hgt hk
    have h2 := hmax k' hk'
    exact absurd (lt_of_le_of_lt h2 h1) (lt_irrefl _)

theorem lastMaxIdx_spec_of (l : List ℚ) (k : ℕ)
    (hk : k < l.length)
    (hmax : ∀ j, j < l.length → l.getD j 0 ≤ l.getD k 0)
    (hlast : ∀ j, k < j → j < l.length → l.getD j 0 < l.getD k 0) :
    lastMaxIdx l = some k := by
  have hne : l ≠ [] := by
    intro hl
    rw [hl] at hk
    simp at hk
  have hsome : ∃ k0, lastMaxIdx l = some k0 := by
    rcases h0 : lastMaxIdx l with _ | k0
    · exact absurd ((lastMaxIdx_eq_none_iff l).mp h0) hne
    · exact ⟨k0, rfl⟩
  rcases hsome with ⟨k0, h0⟩
  have heq : k0 = k :=
    lastMax_unique l k0 k (lastMaxIdx_lt_length l k0 h0)
      (lastMaxIdx_is_max l k0 h0) (lastMaxIdx_is_last l k0 h0) hk hmax hlast
  rw [h0, heq]

/-! ### Lemmas about `np.max`, `np.average` and spike-shaped spectra -/

theorem foldl_max_spec (xs : List ℚ) (a : ℚ) :
    (xs.foldl max a = a ∨ xs.foldl max a ∈ xs) ∧
      a ≤ xs.foldl max a ∧ ∀ x ∈ xs, x ≤ xs.foldl max a := by
  induction xs generalizing a with
  | nil => exact ⟨Or.inl rfl, le_refl a, by simp⟩
  | cons x xs ih =>
    have h := ih (max a x)
    refine ⟨?_, ?_, ?_⟩
    · rcases h.1 with h1 | h1
      · rcases max_choice a x with hc | hc
        · exact Or.inl (by rw [List.foldl_cons, h1, hc])
        · refine Or.inr ?_
          rw [List.foldl_cons, h1, hc]
          exact List.mem_cons_self x xs
      · exact Or.inr (List.mem_cons_of_mem x h1)
    · exact le_trans (le_max_left a x) h.2.1
    · intro y hy
      rcases List.mem_cons.mp hy with hy | hy
      · rw [hy]
        exact le_trans (le_max_right a x) h.2.1
      · exact h.2.2 y hy

theorem npMax_spec (l : List ℚ) (m : ℚ) (h : npMax l = some m) :
    m ∈ l ∧ ∀ x ∈ l, x ≤ m := by
  cases l with
  | nil => simp [npMax] at h
  | cons x xs =>
    have hm : m = xs.foldl max x := by
      simp only [npMax, Option.some.injEq] at h
      exact h.symm
    subst hm
    have h := foldl_max_spec xs x
    refine ⟨?_, ?_⟩
    · rcases h.1 with h1 | h1
      · rw [h1]
        exact List.mem_cons_self x xs
      · exact List.mem_cons_of_mem x h1
    · intro y hy
      rcases List.mem_cons.mp hy with hy | hy
      · subst hy
        exact h.2.1
      · exact h.2.2 y hy

theorem npMax_eq_of (l : List ℚ) (m : ℚ)
    (hmem : m ∈ l) (hub : ∀ x ∈ l, x ≤ m) : npMax l = some m := by
  cases l with
  | nil => simp at hmem
  | cons x xs =>
    have h0 : npMax (x :: xs) = some (xs.foldl max x) := rfl
    have hs := npMax_spec (x :: xs) (xs.foldl max x) h0
    rw [h0]
    exact congrArg some (le_antisymm (hub _ hs.1) (hs.2 m hmem))

theorem npAverage_eq (l : List ℚ) (h : l ≠ []) :
    npAverage l = some (l.sum / l.length) := by
  cases l with
  | nil => exact absurd rfl h
  | cons x xs => rfl

theorem calculate_simple_snr_eq (l : List ℚ) (h : l ≠ []) :
    ∃ m, npMax l = some m ∧ (m ∈ l ∧ ∀ x ∈ l, x ≤ m) ∧
      calculate_simple_snr l = some (m - l.sum / l.length) := by
  cases l with
  | nil => exact absurd rfl h
  | cons x xs =>
    refine ⟨xs.foldl max x, rfl, npMax_spec _ _ rfl, ?_⟩
    rw [calculate_simple_snr, npAverage_eq _ h]
    rfl

theorem calculate_simple_snr_eq_none_iff (l : List ℚ) :
    calculate_simple_snr l = none ↔ l = [] := by
  cases l with
  | nil => simp [calculate_simple_snr, npMax, npAverage]
  | cons x xs =>
    simp only [calculate_simple_snr, npMax, npAverage]
    simp

theorem calculate_fundamental_eq_none_iff (l : List ℚ) (fs N rf : ℚ) :
    calculate_fundamental l fs N rf = none ↔ l = [] := by
  rw [calculate_fundamental_eq]
  rcases h : lastMaxIdx l with _ | k
  · simp [(lastMaxIdx_eq_none_iff l).mp h]
  · have : l ≠ [] := by
      intro hl
      rw [(lastMaxIdx_eq_none_iff l).mpr hl] at h
      cases h
    simp [this]

theorem spike_length (N k : ℕ) (F H : ℚ) :
    ((List.replicate N F).set k H).length = N := by simp

theorem spike_getD (N k : ℕ) (F H : ℚ) (j : ℕ) (hj : j < N) :
    ((List.replicate N F).set k H).getD j 0 = if k = j then H else F := by
  have hj' : j < ((List.replicate N F).set k H).length := by
    rw [spike_length]
    exact hj
  rw [List.getD_eq_getElem _ _ hj', List.getElem_set]
  split
  · rfl
  · simp

theorem spike_lastMaxIdx (N k : ℕ) (F H : ℚ) (hk : k < N) (hFH : F < H) :
    lastMaxIdx ((List.replicate N F).set k H) = some k := by
  apply lastMaxIdx_spec_of
  · rw [spike_length]
    exact hk
  · intro j hj
    rw [spike_length] at hj
    rw [spike_getD N k F H j hj, spike_getD N k F H k hk, if_pos rfl]
    split
    · exact le_refl H
    · exact le_of_lt hFH
  · intro j hkj hj
    rw [spike_length] at hj
    rw [spike_getD N k F H j hj, spike_getD N k F H k hk, if_pos rfl,
      if_neg (by omega)]
    exact hFH

theorem spike_sum (N k : ℕ) (F H : ℚ) (hk : k < N) :
    ((List.replicate N F).set k H).sum = (N : ℚ) * F - F + H := by
  induction N generalizing k with
  | zero => omega
  | succ n ih =>
    cases k with
    | zero =>
      simp only [List.replicate_succ, List.set_cons_zero, List.sum_cons,
        List.sum_replicate, nsmul_eq_mul]
      push_cast
      ring
    | succ k =>
      have hk' : k < n := by omega
      simp only [List.replicate_succ, List.set_cons_succ, List.sum_cons, ih k hk']
      push_cast
      ring

theorem spike_mem (N k : ℕ) (F H : ℚ) (hk : k < N) :
    H ∈ (List.replicate N F).set k H := by
  have hk' : k < ((List.replicate N F).set k H).length := by
    rw [spike_length]
    exact hk
  have hget : ((List.replicate N F).set k H)[k] = H := by
    rw [List.getElem_set, if_pos rfl]
  have hmem := List.getElem_mem hk'
  rw [hget] at hmem
  exact hmem

theorem spike_ub (N k : ℕ) (F H : ℚ) (hFH : F ≤ H) :
    ∀ x ∈ (List.replicate N F).set k H, x ≤ H := by
  intro x hx
  rcases List.mem_iff_getElem.mp hx with ⟨j, hj, hx⟩
  rw [List.getElem_set] at hx
  subst hx
  split
  · exact le_refl H
  · rw [List.getElem_replicate]
    exact hFH

theorem calculate_simple_snr_spike (N k : ℕ) (F H : ℚ) (hk : k < N)
    (hFH : F ≤ H) :
    calculate_simple_snr ((List.replicate N F).set k H) =
      some (H - ((N : ℚ) * F - F + H) / N) := by
  have hne : (List.replicate N F).set k H ≠ [] := by
    intro hl
    have := spike_length N k F H
    rw [hl] at this
    simp at this
    omega
  rw [calculate_simple_snr,
    npMax_eq_of _ H (spike_mem N k F H hk) (spike_ub N k F H hFH),
    npAverage_eq _ hne, spike_sum N k F H hk, spike_length]

theorem calculate_fundamental_spike (N k : ℕ) (F H : ℚ) (hk : k < N)
    (hFH : F < H) (fs Nq rf : ℚ) :
    calculate_fundamental ((List.replicate N F).set k H) fs Nq rf =
      some ((k : ℚ) * (fs / Nq) + rf - fs / 2) := by
  rw [calculate_fundamental_eq, spike_lastMaxIdx N k F H hk hFH,
    Option.map_some']

/-! ### Success-path lemmas for the sweep driver -/

theorem ebind_ok {α β : Type} (a : α) (f : α → Except String β) :
    (Except.ok a >>= f : Except String β) = f a := rfl

theorem ebind_error {α β : Type} (e : String) (f : α → Except String β) :
    ((Except.error e : Except String α) >>= f) = Except.error e := rfl

theorem measureOne_ok (env : SweepEnv) (fs N f : ℚ) (i : ℕ) (s : List ℚ)
    (hAF : env.anaFrequency i (receiveFrequencyFor f fs) = .ok ())
    (hAP : env.anaPlotFrequency i (receiveFrequencyFor f fs * 1000000) = .ok ())
    (hAU : env.anaUpdate i = .ok ())
    (hAS : env.anaGetSpectrum i f = .ok s)
    (hne : s ≠ []) :
    measureOne env fs N f i = .ok
      ((calculate_fundamental s fs N
          (receiveFrequencyFor f fs * 1000000)).getD 0 * (1 / 1000000),
       (calculate_simple_snr s).getD 0) := by
  have hfund : ∃ a, calculate_fundamental s fs N
      (receiveFrequencyFor f fs * 1000000) = some a := by
    rcases hh : calculate_fundamental s fs N
        (receiveFrequencyFor f fs * 1000000) with _ | a
    · exact absurd ((calculate_fundamental_eq_none_iff s fs N _).mp hh) hne
    · exact ⟨a, rfl⟩
  have hsnr : ∃ b, calculate_simple_snr s = some b := by
    rcases hh : calculate_simple_snr s with _ | b
    · exact absurd ((calculate_simple_snr_eq_none_iff s).mp hh) hne
    · exact ⟨b, rfl⟩
  rcases hfund with ⟨a, ha⟩
  rcases hsnr with ⟨b, hb⟩
  simp only [measureOne]
  rw [hAF, ebind_ok, hAP, ebind_ok, hAU, ebind_ok, hAS, ebind_ok, ha, hb]
  simp [ha, hb]

theorem measureAll_ok (env : SweepEnv) (fs N f : ℚ) (m : ℕ → ℚ × ℚ)
    (h : ∀ i, measureOne env fs N f i = .ok (m i)) :
    ∀ is, measureAll env fs N f is = .ok (is.map m) := by
  intro is
  induction is with
  | nil => rfl
  | cons i is ih =>
    simp only [measureAll]
    rw [h i, ebind_ok, ih, ebind_ok]
    rfl

theorem configGenerators_ok (env : SweepEnv) (amp f : ℚ)
    (hE : ∀ g, env.genEnable g true = .ok ())
    (hG : ∀ g, env.genGain g amp = .ok ())
    (hF : ∀ g, env.genFrequency g f = .ok ()) :
    ∀ gs, configGenerators env amp f gs = .ok () := by
  intro gs
  induction gs with
  | nil => rfl
  | cons g gs ih =>
    simp only [configGenerators]
    rw [hE g, ebind_ok, hG g, ebind_ok, hF g, ebind_ok, ih]

theorem sweepFreqs_ok (env : SweepEnv) (fs N amp : ℚ)
    (block : ℚ → List (ℚ × ℚ))
    (hcfg : ∀ f, configGenerators env amp f (List.range env.generators) = .ok ())
    (hmeas : ∀ f, measureAll env fs N f (List.range env.analysers) =
      .ok (block f)) :
    ∀ fl, sweepFreqs env fs N amp fl = .ok ((fl.map block).flatten) := by
  intro fl
  induction fl with
  | nil => rfl
  | cons f fl ih =>
    simp only [sweepFreqs]
    rw [hcfg f, ebind_ok, hmeas f, ebind_ok, ih, ebind_ok]
    rfl

theorem run_spectrum_sweep_eq (env : SweepEnv) (fs N : ℚ) (freqs : List ℚ)
    (amp : ℚ) (flat : List (ℚ × ℚ))
    (h : sweepFreqs env fs N amp freqs = .ok flat) :
    run_spectrum_sweep env fs N freqs amp = .ok
      ((List.range env.analysers).map (fun i =>
        [freqs,
         sliceStep env.analysers ((flat.map Prod.fst).drop i),
         sliceStep env.analysers ((flat.map Prod.snd).drop i)])) := by
  unfold run_spectrum_sweep
  rw [h]
  rfl

theorem getD_map_range {α : Type} (d : α) (A i : ℕ) (hi : i < A) (g : ℕ → α) :
    ((List.range A).map g).getD i d = g i := by
  have h1 : i < ((List.range A).map g).length := by simpa using hi
  rw [List.getD_eq_getElem _ _ h1, List.getElem_map, List.getElem_range]

theorem sliceStep_flatten {α : Type} (d : α) (A i : ℕ) (hi : i < A) :
    ∀ (blocks : List (List α)), (∀ b ∈ blocks, b.length = A) →
      sliceStep A ((blocks.flatten).drop i) = blocks.map (fun b => b.getD i d) := by
  intro blocks
  induction blocks with
  | nil =>
    intro _
    simp [sliceStep]
  | cons b bs ih =>
    intro hlen
    have hb : b.length = A := hlen b (List.mem_cons_self b bs)
    have hi' : i < b.length := by
      rw [hb]
      exact hi
    rw [List.flatten_cons, List.drop_append_of_le_length (le_of_lt hi'),
      List.drop_eq_getElem_cons hi']
    simp only [List.cons_append, sliceStep]
    have hlen2 : (List.drop (i + 1) b).length ≤ A - 1 := by
      simp only [List.length_drop, hb]
      omega
    have hidx : A - 1 - (List.drop (i + 1) b).length = i := by
      simp only [List.length_drop, hb]
      omega
    rw [List.drop_append_eq_append_drop, List.drop_eq_nil_of_le hlen2,
      List.nil_append, hidx, ih (fun b hb => hlen b (List.mem_cons_of_mem _ hb)),
      List.map_cons, List.getD_eq_getElem b d hi']

theorem run_spectrum_sweep_ok (env : SweepEnv) (fs N amp : ℚ) (freqs : List ℚ)
    (spec : ℕ → ℚ → List ℚ)
    (hE : ∀ g, env.genEnable g true = .ok ())
    (hG : ∀ g, env.genGain g amp = .ok ())
    (hF : ∀ g f, env.genFrequency g f = .ok ())
    (hAF : ∀ i rf, env.anaFrequency i rf = .ok ())
    (hAP : ∀ i rf, env.anaPlotFrequency i rf = .ok ())
    (hAU : ∀ i, env.anaUpdate i = .ok ())
    (hAS : ∀ i f, env.anaGetSpectrum i f = .ok (spec i f))
    (hne : ∀ i f, spec i f ≠ []) :
    run_spectrum_sweep env fs N freqs amp = .ok
      ((List.range env.analysers).map (fun i =>
        [freqs,
         freqs.map (fun f =>
           (calculate_fundamental (spec i f) fs N
               (receiveFrequencyFor f fs * 1000000)).getD 0 * (1 / 1000000)),
         freqs.map (fun f => (calculate_simple_snr (spec i f)).getD 0)])) := by
  have hm1 : ∀ f i, measureOne env fs N f i = .ok
      ((calculate_fundamental (spec i f) fs N
          (receiveFrequencyFor f fs * 1000000)).getD 0 * (1 / 1000000),
       (calculate_simple_snr (spec i f)).getD 0) :=
    fun f i => measureOne_ok env fs N f i (spec i f) (hAF i _) (hAP i _)
      (hAU i) (hAS i f) (hne i f)
  have hm2 : ∀ f, measureAll env fs N f (List.range env.analysers) = .ok
      ((List.range env.analysers).map (fun i =>
        ((calculate_fundamental (spec i f) fs N
            (receiveFrequencyFor f fs * 1000000)).getD 0 * (1 / 1000000),
         (calculate_simple_snr (spec i f)).getD 0))) :=
    fun f => measureAll_ok env fs N f _ (hm1 f) _
  have hcfg : ∀ f, configGenerators env amp f (List.range env.generators) =
      .ok () :=
    fun f => configGenerators_ok env amp f hE hG (fun g => hF g f) _
  have hsw := sweepFreqs_ok env fs N amp _ hcfg hm2 freqs
  rw [run_spectrum_sweep_eq env fs N freqs amp _ hsw]
  refine congrArg Except.ok (List.map_congr_left ?_)
  intro i hi
  have hiA : i < env.analysers := List.mem_range.mp hi
  have hfst : ((freqs.map (fun f => (List.range env.analysers).map (fun j =>
      ((calculate_fundamental (spec j f) fs N
          (receiveFrequencyFor f fs * 1000000)).getD 0 * (1 / 1000000),
       (calculate_simple_snr (spec j f)).getD 0)))).flatten).map Prod.fst =
      (freqs.map (fun f => (List.range env.analysers).map (fun j =>
        (calculate_fundamental (spec j f) fs N
            (receiveFrequencyFor f fs * 1000000)).getD 0 * (1 / 1000000)))).flatten := by
    rw [List.map_flatten, List.map_map]
    congr 1
    refine List.map_congr_left ?_
    intro f _
    simp [List.map_map]
  have hsnd : ((freqs.map (fun f => (List.range env.analysers).map (fun j =>
      ((calculate_fundamental (spec j f) fs N
          (receiveFrequencyFor f fs * 1000000)).getD 0 * (1 / 1000000),
       (calculate_simple_snr (spec j f)).getD 0)))).flatten).map Prod.snd =
      (freqs.map (fun f => (List.range env.analysers).map (fun j =>
        (calculate_simple_snr (spec j f)).getD 0))).flatten := by
    rw [List.map_flatten, List.map_map]
    congr 1
    refine List.map_congr_left ?_
    intro f _
    simp [List.map_map]
  rw [hfst, hsnd,
    sliceStep_flatten 0 env.analysers i hiA _
      (by
        intro b hb
        rcases List.mem_map.mp hb with ⟨f, _, hbf⟩
        rw [← hbf]
        simp),
    sliceStep_flatten 0 env.analysers i hiA _
      (by
        intro b hb
        rcases List.mem_map.mp hb with ⟨f, _, hbf⟩
        rw [← hbf]
        simp),
    List.map_map, List.map_map]
  simp only [Function.comp_def]
  congr 2
  · exact List.map_congr_left (fun f _ => getD_map_range 0 env.analysers i hiA _)
  · congr 1
    exact List.map_congr_left (fun f _ => getD_map_range 0 env.analysers i hiA _)

/-! ### Error-propagation lemmas for the sweep driver -/

/-- `e` is an exception raised by one of the external collaborator calls
(or by `np.max`/the indexing inside the measurement code on the empty
spectrum such a call returned). -/
def envErrorSource (env : SweepEnv) (e : String) : Prop :=
  (∃ g, env.genEnable g true = .error e) ∨
  (∃ g a, env.genGain g a = .error e) ∨
  (∃ g f, env.genFrequency g f = .error e) ∨
  (∃ i rf, env.anaFrequency i rf = .error e) ∨
  (∃ i rf, env.anaPlotFrequency i rf = .error e) ∨
  (∃ i, env.anaUpdate i = .error e) ∨
  (∃ i f, env.anaGetSpectrum i f = .error e) ∨
  (e = "empty spectrum" ∧ ∃ i f, env.anaGetSpectrum i f = .ok [])

theorem configGenerators_error (env : SweepEnv) (amp f : ℚ) (e : String) :
    ∀ gs, configGenerators env amp f gs = .error e →
      (∃ g, env.genEnable g true = .error e) ∨
      (∃ g, env.genGain g amp = .error e) ∨
      (∃ g, env.genFrequency g f = .error e) := by
  intro gs
  induction gs with
  | nil => intro h; cases h
  | cons g gs ih =>
    intro h
    simp only [configGenerators] at h
    rcases h1 : env.genEnable g true with e1 | u1
    · rw [h1, ebind_error] at h
      cases h
      exact Or.inl ⟨g, h1⟩
    · rw [h1, ebind_ok] at h
      rcases h2 : env.genGain g amp with e2 | u2
      · rw [h2, ebind_error] at h
        cases h
        exact Or.inr (Or.inl ⟨g, h2⟩)
      · rw [h2, ebind_ok] at h
        rcases h3 : env.genFrequency g f with e3 | u3
        · rw [h3, ebind_error] at h
          cases h
          exact Or.inr (Or.inr ⟨g, h3⟩)
        · rw [h3, ebind_ok] at h
          exact ih h

theorem measureOne_error (env : SweepEnv) (fs N f : ℚ) (i : ℕ) (e : String)
    (h : measureOne env fs N f i = .error e) :
    env.anaFrequency i (receiveFrequencyFor f fs) = .error e ∨
    env.anaPlotFrequency i (receiveFrequencyFor f fs * 1000000) = .error e ∨
    env.anaUpdate i = .error e ∨
    env.anaGetSpectrum i f = .error e ∨
    (env.anaGetSpectrum i f = .ok [] ∧ e = "empty spectrum") := by
  simp only [measureOne] at h
  rcases h1 : env.anaFrequency i (receiveFrequencyFor f fs) with e1 | u1
  · rw [h1, ebind_error] at h
    injection h with he
    subst he
    exact Or.inl rfl
  · rw [h1, ebind_ok] at h
    rcases h2 : env.anaPlotFrequency i (receiveFrequencyFor f fs * 1000000)
      with e2 | u2
    · rw [h2, ebind_error] at h
      injection h with he
      subst he
      exact Or.inr (Or.inl rfl)
    · rw [h2, ebind_ok] at h
      rcases h3 : env.anaUpdate i with e3 | u3
      · rw [h3, ebind_error] at h
        injection h with he
        subst he
        exact Or.inr (Or.inr (Or.inl rfl))
      · rw [h3, ebind_ok] at h
        rcases h4 : env.anaGetSpectrum i f with e4 | s
        · rw [h4, ebind_error] at h
          injection h with he
          subst he
          exact Or.inr (Or.inr (Or.inr (Or.inl rfl)))
        · rw [h4, ebind_ok] at h
          by_cases hs : s = []
          · subst hs
            rw [(calculate_fundamental_eq_none_iff [] fs N _).mpr rfl,
              (calculate_simple_snr_eq_none_iff []).mpr rfl] at h
            injection h with he
            exact Or.inr (Or.inr (Or.inr (Or.inr ⟨rfl, he.symm⟩)))
          · have hfund : ∃ a, calculate_fundamental s fs N
                (receiveFrequencyFor f fs * 1000000) = some a := by
              rcases hh : calculate_fundamental s fs N
                  (receiveFrequencyFor f fs * 1000000) with _ | a
              · exact absurd
                  ((calculate_fundamental_eq_none_iff s fs N _).mp hh) hs
              · exact ⟨a, rfl⟩
            have hsnr : ∃ b, calculate_simple_snr s = some b := by
              rcases hh : calculate_simple_snr s with _ | b
              · exact absurd ((calculate_simple_snr_eq_none_iff s).mp hh) hs
              · exact ⟨b, rfl⟩
            rcases hfund with ⟨a, ha⟩
            rcases hsnr with ⟨b, hb⟩
            rw [ha, hb] at h
            cases h

theorem measureAll_error (env : SweepEnv) (fs N f : ℚ) (e : String) :
    ∀ is, measureAll env fs N f is = .error e →
      ∃ i, i ∈ is ∧ measureOne env fs N f i = .error e := by
  intro is
  induction is with
  | nil => intro h; cases h
  | cons i is ih =>
    intro h
    simp only [measureAll] at h
    rcases h1 : measureOne env fs N f i with e1 | m1
    · rw [h1, ebind_error] at h
      cases h
      exact ⟨i, List.mem_cons_self i is, h1⟩
    · rw [h1, ebind_ok] at h
      rcases h2 : measureAll env fs N f is with e2 | ms
      · rw [h2, ebind_error] at h
        cases h
        rcases ih h2 with ⟨j, hj, hje⟩
        exact ⟨j, List.mem_cons_of_mem i hj, hje⟩
      · rw [h2, ebind_ok] at h
        cases h

theorem sweepFreqs_error (env : SweepEnv) (fs N amp : ℚ) (e : String) :
    ∀ fl, sweepFreqs env fs N amp fl = .error e →
      ∃ f, f ∈ fl ∧
        (configGenerators env amp f (List.range env.generators) = .error e ∨
         measureAll env fs N f (List.range env.analysers) = .error e) := by
  intro fl
  induction fl with
  | nil => intro h; cases h
  | cons f fl ih =>
    intro h
    simp only [sweepFreqs] at h
    rcases h1 : configGenerators env amp f (List.range env.generators)
      with e1 | u1
    · rw [h1, ebind_error] at h
      cases h
      exact ⟨f, List.mem_cons_self f fl, Or.inl h1⟩
    · rw [h1, ebind_ok] at h
      rcases h2 : measureAll env fs N f (List.range env.analysers) with e2 | ms
      · rw [h2, ebind_error] at h
        cases h
        exact ⟨f, List.mem_cons_self f fl, Or.inr h2⟩
      · rw [h2, ebind_ok] at h
        rcases h3 : sweepFreqs env fs N amp fl with e3 | rest
        · rw [h3, ebind_error] at h
          cases h
          rcases ih h3 with ⟨f', hf', hcase⟩
          exact ⟨f', List.mem_cons_of_mem f hf', hcase⟩
        · rw [h3, ebind_ok] at h
          cases h

theorem run_spectrum_sweep_error (env : SweepEnv) (fs N : ℚ) (freqs : List ℚ)
    (amp : ℚ) (e : String)
    (h : run_spectrum_sweep env fs N freqs amp = .error e) :
    sweepFreqs env fs N amp freqs = .error e := by
  unfold run_spectrum_sweep at h
  rcases h1 : sweepFreqs env fs N amp freqs with e1 | flat
  · rw [h1, ebind_error] at h
    injection h with he
    subst he
    rfl
  · rw [h1, ebind_ok] at h
    cases h

theorem run_spectrum_sweep_error_source (env : SweepEnv) (fs N : ℚ)
    (freqs : List ℚ) (amp : ℚ) (e : String)
    (h : run_spectrum_sweep env fs N freqs amp = .error e) :
    envErrorSource env e := by
  rcases sweepFreqs_error env fs N amp e freqs
    (run_spectrum_sweep_error env fs N freqs amp e h) with ⟨f, _, hcase⟩
  rcases hcase with hcfg | hmeas
  · rcases configGenerators_error env amp f e _ hcfg with ⟨g, hg⟩ | ⟨g, hg⟩ | ⟨g, hg⟩
    · exact Or.inl ⟨g, hg⟩
    · exact Or.inr (Or.inl ⟨g, amp, hg⟩)
    · exact Or.inr (Or.inr (Or.inl ⟨g, f, hg⟩))
  · rcases measureAll_error env fs N f e _ hmeas with ⟨i, _, hie⟩
    rcases measureOne_error env fs N f i e hie with h1 | h2 | h3 | h4 | h5
    · exact Or.inr (Or.inr (Or.inr (Or.inl ⟨i, _, h1⟩)))
    · exact Or.inr (Or.inr (Or.inr (Or.inr (Or.inl ⟨i, _, h2⟩))))
    · exact Or.inr (Or.inr (Or.inr (Or.inr (Or.inr (Or.inl ⟨i, h3⟩)))))
    · exact Or.inr (Or.inr (Or.inr (Or.inr (Or.inr (Or.inr (Or.inl ⟨i, f, h4⟩))))))
    · exact Or.inr (Or.inr (Or.inr (Or.inr (Or.inr (Or.inr (Or.inr
        ⟨h5.2, i, f, h5.1⟩))))))

/-! ### Lemmas about `fftshift` and the DFT -/

theorem fftshift_even {α : Type} (x : List α) (m : ℕ) (hm : x.length = 2 * m) :
    fftshift x = x.drop m ++ x.take m := by
  unfold fftshift
  rw [hm]
  have h2 : (2 * m + 1) / 2 = m := by omega
  rw [h2]

theorem fftshift_length {α : Type} (x : List α) :
    (fftshift x).length = x.length := by
  unfold fftshift
  rw [List.length_append, List.length_drop, List.length_take]
  omega

theorem fftshift_involutive {α : Type} (x : List α) (h : Even x.length) :
    fftshift (fftshift x) = x := by
  rcases h with ⟨m, hm⟩
  have hm2 : x.length = 2 * m := by omega
  have hd : (x.drop m).length = m := by
    rw [List.length_drop]
    omega
  have ht : (x.take m).length = m := by
    rw [List.length_take]
    omega
  have hlen : (x.drop m ++ x.take m).length = 2 * m := by
    rw [List.length_append, hd, ht]
    omega
  rw [fftshift_even x m hm2, fftshift_even _ m hlen,
    List.drop_append_eq_append_drop, List.drop_eq_nil_of_le (le_of_eq hd),
    List.nil_append, hd, Nat.sub_self, List.drop_zero,
    List.take_append_eq_append_take, hd, Nat.sub_self, List.take_zero,
    List.append_nil]
  have htake : List.take m (x.drop m) = x.drop m :=
    List.take_of_length_le (le_of_eq hd)
  rw [htake, List.take_append_drop]

theorem fftshift_getElem? {α : Type} (x : List α) (i : ℕ)
    (hi : i < x.length) :
    (fftshift x)[i]? = x[(i + (x.length + 1) / 2) % x.length]? := by
  have hN : 0 < x.length := by omega
  have hd : (x.drop ((x.length + 1) / 2)).length =
      x.length - (x.length + 1) / 2 := List.length_drop _ _
  unfold fftshift
  by_cases hcase : i < x.length - (x.length + 1) / 2
  · rw [List.getElem?_append_left (by rw [hd]; exact hcase),
      List.getElem?_drop, Nat.mod_eq_of_lt (by omega),
      Nat.add_comm ((x.length + 1) / 2) i]
  · rw [List.getElem?_append_right (by rw [hd]; omega), hd,
      List.getElem?_take]
    have hmod : (i + (x.length + 1) / 2) % x.length =
        i - (x.length - (x.length + 1) / 2) := by
      rw [Nat.mod_eq_sub_mod (by omega), Nat.mod_eq_of_lt (by omega)]
      omega
    rw [hmod, if_pos (by omega)]

theorem dft_length (x : List ℂ) : (dft x).length = x.length := by
  unfold dft
  rw [List.length_map, List.length_range]

theorem dft_getElem? (x : List ℂ) (k : ℕ) (hk : k < x.length) :
    (dft x)[k]? = some (∑ n ∈ Finset.range x.length,
      x.getD n 0 * Complex.exp
        (-(2 * Real.pi * Complex.I * (k : ℂ) * (n : ℂ)) / (x.length : ℂ))) := by
  unfold dft
  rw [List.getElem?_map, List.getElem?_range hk, Option.map_some']

theorem exp_shift_eq (N i n : ℕ) (hi : i < N) :
    Complex.exp (-(2 * Real.pi * Complex.I *
        (((i + (N + 1) / 2) % N : ℕ) : ℂ) * (n : ℂ)) / (N : ℂ)) =
      Complex.exp (-(2 * Real.pi * Complex.I *
        ((i : ℂ) - ((N / 2 : ℕ) : ℂ)) * (n : ℂ)) / (N : ℂ)) := by
  have hN : 0 < N := by omega
  have hne : ((N : ℕ) : ℂ) ≠ 0 := by
    rw [Nat.cast_ne_zero]
    omega
  by_cases hcase : i + (N + 1) / 2 < N
  · have hK : (((i + (N + 1) / 2) % N : ℕ) : ℂ) =
        ((i : ℂ) - ((N / 2 : ℕ) : ℂ)) + (N : ℂ) := by
      rw [Nat.mod_eq_of_lt hcase]
      have hc : (N + 1) / 2 = N - N / 2 := by omega
      rw [hc, Nat.cast_add, Nat.cast_sub (by omega : N / 2 ≤ N)]
      ring
    rw [hK]
    have hsplit : -(2 * Real.pi * Complex.I *
        (((i : ℂ) - ((N / 2 : ℕ) : ℂ)) + (N : ℂ)) * (n : ℂ)) / (N : ℂ) =
        -(2 * Real.pi * Complex.I * ((i : ℂ) - ((N / 2 : ℕ) : ℂ)) * (n : ℂ)) /
          (N : ℂ) + (((-(n : ℤ)) : ℤ) : ℂ) * (2 * Real.pi * Complex.I) := by
      push_cast
      field_simp
      ring
    rw [hsplit, Complex.exp_add, Complex.exp_int_mul_two_pi_mul_I, mul_one]
  · have hK : (((i + (N + 1) / 2) % N : ℕ) : ℂ) =
        (i : ℂ) - ((N / 2 : ℕ) : ℂ) := by
      have hmod : (i + (N + 1) / 2) % N = i - N / 2 := by
        rw [Nat.mod_eq_sub_mod (by omega), Nat.mod_eq_of_lt (by omega)]
        omega
      rw [hmod, Nat.cast_sub (by omega : N / 2 ≤ i)]
    rw [hK]

theorem fdataStep_bin (y : List ℂ) (i : ℕ) (hi : i < y.length) :
    (fdataStep y)[i]? = some (∑ n ∈ Finset.range y.length,
      y.getD n 0 * Complex.exp
        (-(2 * Real.pi * Complex.I * ((i : ℂ) - ((y.length / 2 : ℕ) : ℂ)) *
            (n : ℂ)) / (y.length : ℂ))) := by
  have hdlen : (dft y).length = y.length := dft_length y
  have hi' : i < (dft y).length := by omega
  unfold fdataStep
  rw [fftshift_getElem? (dft y) i hi', hdlen,
    dft_getElem? y _ (Nat.mod_lt _ (by omega))]
  congr 1
  refine Finset.sum_congr rfl ?_
  intro n _
  rw [exp_shift_eq y.length i n hi]

/-! ### Claim theorems -/

/-- C2: each bin of `freq_to_psd` is `10*log10(|z|²/(fs·E))` when that
ratio is positive (with `E` the sum of the squared window coefficients),
and exactly `0` — not `-∞` and not an error — when the ratio is
non-positive. -/
theorem C2_freq_to_psd_bin (data : List ℂ) (N : ℕ) (fs : ℝ) (window : List ℝ)
    (i : ℕ) (hi : i < data.length) :
    (0 < Complex.abs (data.getD i 0) ^ 2 /
        (fs * ((window.map (fun w => w ^ 2)).sum)) →
      (freq_to_psd data N fs window)[i]? =
        some (10 * Real.logb 10 (Complex.abs (data.getD i 0) ^ 2 /
          (fs * ((window.map (fun w => w ^ 2)).sum))))) ∧
    (Complex.abs (data.getD i 0) ^ 2 /
        (fs * ((window.map (fun w => w ^ 2)).sum)) ≤ 0 →
      (freq_to_psd data N fs window)[i]? = some 0) := by
  have hget : data[i]? = some (data.getD i 0) := by
    rw [List.getElem?_eq_getElem hi, List.getD_eq_getElem data 0 hi]
  constructor
  · intro hpos
    unfold freq_to_psd
    rw [List.getElem?_map, hget, Option.map_some']
    simp only [if_pos hpos]
  · intro hnonpos
    unfold freq_to_psd
    rw [List.getElem?_map, hget, Option.map_some']
    simp only [if_neg (not_lt.mpr hnonpos), mul_zero]

/-- C2 witness: for the single bin `i` of magnitude 1, `fs = 1` and the
rectangular window `[1]`, the ratio is 1 and the bin's PSD is
`10*log10 1 = 0`. -/
theorem C2_freq_to_psd_bin_witness :
    (freq_to_psd [Complex.I] 1 1 [(1 : ℝ)])[0]? = some 0 := by
  have h := (C2_freq_to_psd_bin [Complex.I] 1 1 [(1 : ℝ)] 0 (by simp)).1
  have hval : Complex.abs (([Complex.I] : List ℂ).getD 0 0) ^ 2 /
      ((1 : ℝ) * ((([(1 : ℝ)]).map (fun w => w ^ 2)).sum)) = 1 := by
    simp [Complex.abs_I]
  rw [h (by rw [hval]; norm_num), hval, Real.logb_one, mul_zero]

/-- C3 (counterexample): NumPy's elementwise multiply does NOT fail on
every length mismatch: a length-one window broadcasts, so multiplying the
two-element vector `[1, 2]` by the one-element vector `[3]` succeeds and
yields `[3, 6]`. -/
theorem C3_broadcast_counterexample :
    npMul [(1 : ℂ), 2] [(3 : ℂ)] = some [3, 6] ∧
    npMul [(1 : ℂ), 2] [(3 : ℂ)] ≠ none := by
  constructor
  · unfold npMul
    rw [if_neg (by simp), if_pos (show ([(3 : ℂ)]).length = 1 from rfl)]
    norm_num
  · unfold npMul
    rw [if_neg (by simp), if_pos (show ([(3 : ℂ)]).length = 1 from rfl)]
    simp

/-- C3 (amended): the windowing multiply returns `y` with
`y[i] = x[i]*w[i]` when the lengths agree, and fails with a broadcast
(length-mismatch) error when the lengths differ — except that a length-one
operand broadcasts instead of failing. -/
theorem C3_windowing (x w : List ℂ) :
    (x.length = w.length →
      npMul x w = some (List.zipWith (fun a b => a * b) x w) ∧
      ∀ i, i < x.length →
        (List.zipWith (fun a b => a * b) x w).getD i 0 =
          x.getD i 0 * w.getD i 0) ∧
    (x.length ≠ w.length → x.length ≠ 1 → w.length ≠ 1 →
      npMul x w = none) := by
  constructor
  · intro hlen
    constructor
    · unfold npMul
      rw [if_pos hlen]
    · intro i hi
      have hiw : i < w.length := hlen ▸ hi
      have hiz : i < (List.zipWith (fun a b => a * b) x w).length := by
        rw [List.length_zipWith]
        omega
      rw [List.getD_eq_getElem _ 0 hiz, List.getD_eq_getElem x 0 hi,
        List.getD_eq_getElem w 0 hiw, List.getElem_zipWith]
  · intro h1 h2 h3
    unfold npMul
    rw [if_neg h1, if_neg h3, if_neg h2]

/-- C3 witness: equal lengths multiply componentwise
(`[1,2]*[3,4] = [3,8]`), while `[1,2]*[3,4,5]` raises the broadcast
error. -/
theorem C3_windowing_witness :
    npMul [(1 : ℂ), 2] [(3 : ℂ), 4] =
      some (List.zipWith (fun a b => a * b) [(1 : ℂ), 2] [(3 : ℂ), 4]) ∧
    npMul [(1 : ℂ), 2] [(3 : ℂ), 4, 5] = none :=
  ⟨((C3_windowing [(1 : ℂ), 2] [(3 : ℂ), 4]).1 rfl).1,
   (C3_windowing [(1 : ℂ), 2] [(3 : ℂ), 4, 5]).2 (by simp) (by simp) (by simp)⟩

/-- C4: `calculate_simple_snr` is the spectrum's maximum minus the mean of
all bins (the mean includes the peak bin itself); on a flat floor `F` of
`N` bins with a single spike of height `H` at bin `k` it returns exactly
`H - ((N-1)*F + H)/N`. -/
theorem C4_snr (spectrum : List ℚ) (N k : ℕ) (F H : ℚ)
    (hs : spectrum ≠ []) (hk : k < N) (hFH : F ≤ H) :
    (∃ m, (m ∈ spectrum ∧ ∀ x ∈ spectrum, x ≤ m) ∧
      calculate_simple_snr spectrum =
        some (m - spectrum.sum / spectrum.length)) ∧
    calculate_simple_snr ((List.replicate N F).set k H) =
      some (H - (((N : ℚ) - 1) * F + H) / N) := by
  constructor
  · rcases calculate_simple_snr_eq spectrum hs with ⟨m, _, hmax, hval⟩
    exact ⟨m, hmax, hval⟩
  · rw [calculate_simple_snr_spike N k F H hk hFH]
    congr 1
    ring

/-- C4 witness: for the spectrum `[2, 5, 2]` (floor 2, spike 5, `N = 3`,
`k = 1`), the SNR is `5 - ((3-1)*2 + 5)/3 = 2`. -/
theorem C4_snr_witness :
    calculate_simple_snr ((List.replicate 3 (2 : ℚ)).set 1 5) =
      some (5 - (((3 : ℚ) - 1) * 2 + 5) / 3) :=
  (C4_snr [(2 : ℚ), 5, 2] 3 1 2 5 (by simp) (by omega) (by norm_num)).2

/-- C5: the sweep's Nyquist-zone selection returns the low zone constant
1228.8 MHz exactly when the swept frequency in Hz is strictly below the
sample frequency, and the high zone constant 3686.4 MHz otherwise.  The
selection takes no analyser argument, so every receive-channel analyser at
a given frequency is configured with the same centre. -/
theorem C5_zone_selection (f fs : ℚ) :
    (receiveFrequencyFor f fs = 12288 / 10 ↔ f * 1000000 < fs) ∧
    (receiveFrequencyFor f fs = 36864 / 10 ↔ ¬ f * 1000000 < fs) := by
  unfold receiveFrequencyFor frequency_zones
  by_cases h : f * 1000000 < fs
  · rw [if_pos h]
    constructor
    · simp [h]
    · constructor
      · intro hc
        norm_num at hc
      · intro hc
        exact absurd h hc
  · rw [if_neg h]
    constructor
    · constructor
      · intro hc
        norm_num at hc
      · intro hc
        exact absurd hc h
    · simp [h]

/-- C7 (counterexample): the claim's bin-frequency rule fails at odd
lengths, which the program actually runs (notebook 02 uses the odd
`number_samples = 1229`).  At the odd length `N = 3`, bin 1 of the
transform step on `[0, 1, 0]` is `1`; the claimed rule — bin `i` at
frequency `-fs/2 + i·(fs/N)`, i.e. the DFT correlation at the signed
index `i - N/2 = 1 - 3/2` — predicts `exp(πi/3) ≠ 1` there, half a bin
away. -/
theorem C7_odd_counterexample :
    (fdataStep [(0 : ℂ), 1, 0])[1]? = some 1 ∧
    (∑ n ∈ Finset.range 3, ([(0 : ℂ), 1, 0]).getD n 0 * Complex.exp
        (-(2 * Real.pi * Complex.I * ((1 : ℂ) - (3 : ℂ) / 2) * (n : ℂ)) /
          (3 : ℂ))) ≠ 1 := by
  constructor
  · have h := fdataStep_bin [(0 : ℂ), 1, 0] 1 (by norm_num)
    rw [show ([(0 : ℂ), 1, 0]).length = 3 from rfl] at h
    rw [show (3 / 2 : ℕ) = 1 from rfl] at h
    rw [h]
    congr 1
    rw [Finset.sum_range_succ, Finset.sum_range_succ, Finset.sum_range_one]
    push_cast
    simp
  · have hval : (∑ n ∈ Finset.range 3, ([(0 : ℂ), 1, 0]).getD n 0 *
        Complex.exp (-(2 * Real.pi * Complex.I * ((1 : ℂ) - (3 : ℂ) / 2) *
          (n : ℂ)) / (3 : ℂ))) =
        Complex.exp (((Real.pi / 3 : ℝ) : ℂ) * Complex.I) := by
      rw [Finset.sum_range_succ, Finset.sum_range_succ, Finset.sum_range_one]
      simp only [List.getD_cons_zero, List.getD_cons_succ, zero_mul, one_mul,
        zero_add, add_zero]
      congr 1
      push_cast
      ring
    rw [hval]
    intro hcontra
    have him := congrArg Complex.im hcontra
    rw [Complex.exp_ofReal_mul_I_im, Complex.one_im,
      Real.sin_pi_div_three, div_eq_zero_iff] at him
    have h3 : (0 : ℝ) < Real.sqrt 3 := Real.sqrt_pos.mpr (by norm_num)
    rcases him with h | h
    · exact absurd h (ne_of_gt h3)
    · norm_num at h

/-- C7 (amended): for every windowed vector `y` of length `N` and every
bin `i < N`, the transform step is the unscaled `N`-point DFT followed by
the zero-frequency-centering reorder, and bin `i` is the DFT correlation
at the signed frequency index `i - ⌊N/2⌋`, i.e. at frequency
`(i - ⌊N/2⌋)·(fs/N)` relative to the channel centre.  For even `N` this
is the claimed `-fs/2 + i·(fs/N)`; for odd `N` (the notebook's
`N = 1229`) it is `-fs/2 + (i + 1/2)·(fs/N)`, half a bin above the
claimed frequency.  The step also preserves the length. -/
theorem C7_spectral_transform (y : List ℂ) (i : ℕ) (hi : i < y.length) :
    (fdataStep y).length = y.length ∧
    (fdataStep y)[i]? = some (∑ n ∈ Finset.range y.length,
      y.getD n 0 * Complex.exp
        (-(2 * Real.pi * Complex.I * ((i : ℂ) - ((y.length / 2 : ℕ) : ℂ)) *
            (n : ℂ)) / (y.length : ℂ))) ∧
    (∀ fs : ℝ,
      (Even y.length →
        ((i : ℝ) - ((y.length / 2 : ℕ) : ℝ)) * (fs / (y.length : ℝ)) =
          -(fs / 2) + (i : ℝ) * (fs / (y.length : ℝ))) ∧
      (¬ Even y.length →
        ((i : ℝ) - ((y.length / 2 : ℕ) : ℝ)) * (fs / (y.length : ℝ)) =
          -(fs / 2) + ((i : ℝ) + 1 / 2) * (fs / (y.length : ℝ)))) := by
  refine ⟨?_, fdataStep_bin y i hi, ?_⟩
  · unfold fdataStep
    rw [fftshift_length, dft_length]
  · intro fs
    constructor
    · intro heven
      rcases heven with ⟨m', hm'⟩
      have hm'0 : m' ≠ 0 := by omega
      have hdiv : y.length / 2 = m' := by omega
      have hm'' : (m' : ℝ) ≠ 0 := Nat.cast_ne_zero.mpr hm'0
      rw [hdiv, hm']
      push_cast
      field_simp
      ring
    · intro hodd
      have h1 : y.length % 2 = 1 := by
        rcases Nat.even_or_odd y.length with he | ho
        · exact absurd he hodd
        · exact Nat.odd_iff.mp ho
      obtain ⟨m', hm'⟩ : ∃ m', y.length = 2 * m' + 1 :=
        ⟨y.length / 2, by omega⟩
      have hdiv : y.length / 2 = m' := by omega
      have hne2 : (2 * (m' : ℝ) + 1) ≠ 0 := by positivity
      rw [hdiv, hm']
      push_cast
      field_simp
      ring

/-- C7 witness: the amended theorem at the odd-length vector `[0, 1, 0]`
and bin 1: the length is preserved and the bin frequency is the
half-bin-shifted `-fs/2 + (1 + 1/2)·(fs/3)`. -/
theorem C7_spectral_transform_witness :
    (fdataStep [(0 : ℂ), 1, 0]).length = ([(0 : ℂ), 1, 0]).length ∧
    (∀ fs : ℝ, ¬ Even ([(0 : ℂ), 1, 0]).length →
      (((1 : ℕ) : ℝ) - ((([(0 : ℂ), 1, 0]).length / 2 : ℕ) : ℝ)) *
          (fs / (([(0 : ℂ), 1, 0]).length : ℝ)) =
        -(fs / 2) + (((1 : ℕ) : ℝ) + 1 / 2) *
          (fs / (([(0 : ℂ), 1, 0]).length : ℝ))) :=
  ⟨(C7_spectral_transform [(0 : ℂ), 1, 0] 1 (by norm_num)).1,
   fun fs => ((C7_spectral_transform [(0 : ℂ), 1, 0] 1 (by norm_num)).2.2 fs).2⟩

/-- C8: the zero-frequency-centering reorder applied twice to an
even-length vector returns the original vector. -/
theorem C8_fftshift_involution (x : List ℂ) (h : Even x.length) :
    fftshift (fftshift x) = x :=
  fftshift_involutive x h

/-- C8 witness: the involution at the concrete vector `[1, 2, 3, 4]`. -/
theorem C8_fftshift_involution_witness :
    Even ([(1 : ℂ), 2, 3, 4]).length ∧
    fftshift (fftshift [(1 : ℂ), 2, 3, 4]) = [(1 : ℂ), 2, 3, 4] :=
  ⟨by decide, C8_fftshift_involution [(1 : ℂ), 2, 3, 4] (by decide)⟩

/-- C10: `freq_to_psd` validates no shapes: its `N` parameter has no
effect; the window enters only through the sum of its squared
coefficients (so two windows of any — even different — lengths with equal
energy give identical output, and no length check against the data is
performed); and the output always has the length of the input data. -/
theorem C10_freq_to_psd_shape (data : List ℂ) (N N' : ℕ) (fs : ℝ)
    (w w' : List ℝ)
    (h : (w.map (fun c => c ^ 2)).sum = (w'.map (fun c => c ^ 2)).sum) :
    freq_to_psd data N fs w = freq_to_psd data N' fs w' ∧
    (freq_to_psd data N fs w).length = data.length := by
  constructor
  · unfold freq_to_psd
    refine List.map_congr_left ?_
    intro z _
    rw [h]
  · unfold freq_to_psd
    rw [List.length_map]

/-- C10 witness: the windows `[1, 1]` and `[-1, 1]` have equal energy, so
with unequal `N` arguments (1 vs 2) the outputs coincide, and the output
length equals the data length 1. -/
theorem C10_freq_to_psd_shape_witness :
    freq_to_psd [(0 : ℂ)] 1 1 [(1 : ℝ), 1] =
      freq_to_psd [(0 : ℂ)] 2 1 [(-1 : ℝ), 1] ∧
    (freq_to_psd [(0 : ℂ)] 1 1 [(1 : ℝ), 1]).length = 1 :=
  C10_freq_to_psd_shape [(0 : ℂ)] 1 2 1 [(1 : ℝ), 1] [(-1 : ℝ), 1]
    (by norm_num)

/-- C9: the sweep either succeeds with result tables, or returns exactly
the exception one of the external collaborator calls raised (or the
exception the measurement code raises on an empty spectrum such a call
returned); an error run carries no result tables at all — `Except.error`
holds no partial per-frequency data — and, the collaborators being
deterministic, a failing call is never retried into a success. -/
theorem C9_error_propagation (env : SweepEnv) (fs N : ℚ) (freqs : List ℚ)
    (amp : ℚ) :
    (∃ ts, run_spectrum_sweep env fs N freqs amp = .ok ts) ∨
    (∃ e, run_spectrum_sweep env fs N freqs amp = .error e ∧
      envErrorSource env e) := by
  rcases h : run_spectrum_sweep env fs N freqs amp with e | ts
  · exact Or.inr ⟨e, rfl, run_spectrum_sweep_error_source env fs N freqs amp e h⟩
  · exact Or.inl ⟨ts, rfl⟩

/-! ### The loopback scenario for the sweep -/

/-- The PSD a simulated loopback analyser reports while the generators are
commanded to `f` MHz: with the notebook's `fs = 2457.6e6` and
`N = 12288` the bin resolution is 0.2 MHz, so a spike at bin `5f` makes
the measured fundamental equal the commanded frequency; the spike height
over the zero floor is chosen so the simple SNR is exactly 90 dB. -/
def loopbackSpectrum (f : ℚ) : List ℚ :=
  (List.replicate 12288 (0 : ℚ)).set (5 * f).num.toNat (1105920 / 12287)

/-- Two tone generators and two spectrum analysers in ideal loopback:
every configuration call succeeds and each analyser reports
`loopbackSpectrum` of the commanded frequency. -/
def loopbackEnv : SweepEnv where
  generators := 2
  analysers := 2
  genEnable := fun _ _ => .ok ()
  genGain := fun _ _ => .ok ()
  genFrequency := fun _ _ => .ok ()
  anaFrequency := fun _ _ => .ok ()
  anaPlotFrequency := fun _ _ => .ok ()
  anaUpdate := fun _ => .ok ()
  anaGetSpectrum := fun _ f => .ok (loopbackSpectrum f)

theorem loopbackSpectrum_length (f : ℚ) : (loopbackSpectrum f).length = 12288 := by
  unfold loopbackSpectrum
  rw [List.length_set, List.length_replicate]

theorem loopbackSpectrum_ne_nil (f : ℚ) : loopbackSpectrum f ≠ [] := by
  intro h
  have hlen := loopbackSpectrum_length f
  rw [h, List.length_nil] at hlen
  omega

theorem loopback_index (f : ℚ) (k : ℕ) (h : 5 * f = (k : ℚ)) :
    (5 * f).num.toNat = k := by
  rw [h, Rat.num_natCast, Int.toNat_natCast]

theorem loopback_fundamental (f : ℚ) (k : ℕ) (hk : (5 * f).num.toNat = k)
    (hkN : k < 12288) (hzone : f * 1000000 < 2457600000)
    (hval : (k : ℚ) * 200000 * (1 / 1000000) = f) :
    (calculate_fundamental (loopbackSpectrum f) 2457600000 12288
        (receiveFrequencyFor f 2457600000 * 1000000)).getD 0 * (1 / 1000000)
      = f := by
  have hz : receiveFrequencyFor f 2457600000 = 12288 / 10 := by
    unfold receiveFrequencyFor frequency_zones
    rw [if_pos hzone]
    rfl
  rw [hz]
  unfold loopbackSpectrum
  rw [hk, calculate_fundamental_spike 12288 k 0 (1105920 / 12287) hkN
    (by norm_num)]
  rw [Option.getD_some]
  rw [show (2457600000 : ℚ) / 12288 = 200000 by norm_num]
  rw [show (12288 : ℚ) / 10 * 1000000 = 1228800000 by norm_num]
  rw [show ((k : ℚ) * 200000 + 1228800000 - 2457600000 / 2) = (k : ℚ) * 200000
    by ring_nf]
  exact hval

theorem loopback_snr (f : ℚ) (hkN : (5 * f).num.toNat < 12288) :
    (calculate_simple_snr (loopbackSpectrum f)).getD 0 = 90 := by
  unfold loopbackSpectrum
  rw [calculate_simple_snr_spike 12288 _ 0 (1105920 / 12287) hkN (by norm_num)]
  rw [Option.getD_some]
  norm_num

/-- C6: (general) with collaborators that never fail and report a
non-empty spectrum, `run_spectrum_sweep` returns one table per analyser,
each with three rows — the transmit frequencies in input order, the
measured fundamentals, and the measured SNRs, column `j` coming from the
`j`-th input frequency; (scenario) sweeping `[200, 600, 1000]` MHz against
the ideal loopback yields, per channel, exactly the rows
`[200, 600, 1000]`, `[200, 600, 1000]`, `[90, 90, 90]`. -/
theorem C6_sweep_tables :
    (∀ (env : SweepEnv) (fs N amp : ℚ) (freqs : List ℚ)
        (spec : ℕ → ℚ → List ℚ),
      (∀ g, env.genEnable g true = .ok ()) →
      (∀ g, env.genGain g amp = .ok ()) →
      (∀ g f, env.genFrequency g f = .ok ()) →
      (∀ i rf, env.anaFrequency i rf = .ok ()) →
      (∀ i rf, env.anaPlotFrequency i rf = .ok ()) →
      (∀ i, env.anaUpdate i = .ok ()) →
      (∀ i f, env.anaGetSpectrum i f = .ok (spec i f)) →
      (∀ i f, spec i f ≠ []) →
      run_spectrum_sweep env fs N freqs amp = .ok
        ((List.range env.analysers).map (fun i =>
          [freqs,
           freqs.map (fun f =>
             (calculate_fundamental (spec i f) fs N
                 (receiveFrequencyFor f fs * 1000000)).getD 0 * (1 / 1000000)),
           freqs.map (fun f => (calculate_simple_snr (spec i f)).getD 0)]))) ∧
    run_spectrum_sweep loopbackEnv 2457600000 12288 [200, 600, 1000] (1 / 2) =
      .ok [[[200, 600, 1000], [200, 600, 1000], [90, 90, 90]],
           [[200, 600, 1000], [200, 600, 1000], [90, 90, 90]]] := by
  constructor
  · intro env fs N amp freqs spec hE hG hF hAF hAP hAU hAS hne
    exact run_spectrum_sweep_ok env fs N amp freqs spec hE hG hF hAF hAP hAU
      hAS hne
  · rw [run_spectrum_sweep_ok loopbackEnv 2457600000 12288 (1 / 2)
      [200, 600, 1000] (fun _ f => loopbackSpectrum f)
      (fun _ => rfl) (fun _ => rfl) (fun _ _ => rfl) (fun _ _ => rfl)
      (fun _ _ => rfl) (fun _ => rfl) (fun _ _ => rfl)
      (fun _ f => loopbackSpectrum_ne_nil f)]
    have h200 : (calculate_fundamental (loopbackSpectrum 200) 2457600000 12288
        (receiveFrequencyFor 200 2457600000 * 1000000)).getD 0 * (1 / 1000000)
        = 200 :=
      loopback_fundamental 200 1000 (loopback_index 200 1000 (by norm_num))
        (by omega) (by norm_num) (by norm_num)
    have h600 : (calculate_fundamental (loopbackSpectrum 600) 2457600000 12288
        (receiveFrequencyFor 600 2457600000 * 1000000)).getD 0 * (1 / 1000000)
        = 600 :=
      loopback_fundamental 600 3000 (loopback_index 600 3000 (by norm_num))
        (by omega) (by norm_num) (by norm_num)
    have h1000 : (calculate_fundamental (loopbackSpectrum 1000) 2457600000
        12288 (receiveFrequencyFor 1000 2457600000 * 1000000)).getD 0 *
        (1 / 1000000) = 1000 :=
      loopback_fundamental 1000 5000 (loopback_index 1000 5000 (by norm_num))
        (by omega) (by norm_num) (by norm_num)
    have hs200 : (calculate_simple_snr (loopbackSpectrum 200)).getD 0 = 90 :=
      loopback_snr 200 (by rw [loopback_index 200 1000 (by norm_num)]; omega)
    have hs600 : (calculate_simple_snr (loopbackSpectrum 600)).getD 0 = 90 :=
      loopback_snr 600 (by rw [loopback_index 600 3000 (by norm_num)]; omega)
    have hs1000 : (calculate_simple_snr (loopbackSpectrum 1000)).getD 0 = 90 :=
      loopback_snr 1000 (by rw [loopback_index 1000 5000 (by norm_num)]; omega)
    have hrange : List.range loopbackEnv.analysers = [0, 1] := rfl
    rw [hrange]
    simp only [List.map_cons, List.map_nil]
    rw [h200, h600, h1000, hs200, hs600, hs1000]

/-- C6 witness: the general table theorem applied to the loopback
environment with the empty frequency list yields two empty three-row
tables. -/
theorem C6_sweep_tables_witness :
    run_spectrum_sweep loopbackEnv 2457600000 12288 [] (1 / 2) =
      .ok [[[], [], []], [[], [], []]] := by
  have h := C6_sweep_tables.1 loopbackEnv 2457600000 12288 (1 / 2) []
    (fun _ f => loopbackSpectrum f)
    (fun _ => rfl) (fun _ => rfl) (fun _ _ => rfl) (fun _ _ => rfl)
    (fun _ _ => rfl) (fun _ => rfl) (fun _ _ => rfl)
    (fun _ f => loopbackSpectrum_ne_nil f)
  simpa using h

end RFSoC
